import Mathlib

/-!
Verification of the opportunity-detection engine of a sports-betting backend.

The definitions below are a shallow embedding of the Python sources:
  app/services/detection_service.py   (the four detectors)
  app/services/opportunity_service.py (lifecycle manager)
  app/services/arb_service.py         (stake calculator)
Decimal odds and all derived percentages are modelled as exact rationals
(the Python code uses floats); `round(x, 2)` is modelled by `round2`.
Pandas DataFrames are modelled as lists of rows in frame order; a pandas
group (`groupby`) is a list of the rows of one group.
-/

/-- One row of the odds DataFrame, restricted to the fields the detectors
read.  `market_params` is optional: `pd.notna(row.get('market_params'))`
decides which source string the middle detector parses. -/
structure Quote where
  bookmaker : String
  outcome : String
  odds : ℚ
  market_params : Option String := none
deriving Repr, DecidableEq

/-- Python `round(x, 2)` idealised on exact rationals (round-half-up; the
float implementation rounds half to even, which differs only on exact
half-hundredths). -/
def round2 (q : ℚ) : ℚ := ((round (q * 100) : ℤ) : ℚ) / 100

/-- `pandas.Series.unique`: the distinct values in first-seen order. -/
def uniqueVals : List String → List String
  | [] => []
  | x :: xs => x :: uniqueVals (xs.filter (fun y => y ≠ x))
termination_by l => l.length
decreasing_by
  simp only [List.length_cons]
  exact Nat.lt_succ_of_le (List.length_filter_le _ _)

/-- `df.loc[df['odds'].idxmax()]`: the first row attaining the maximum
odds (pandas `idxmax` returns the first index of the maximum), `none` on
an empty frame. -/
def argmaxOdds : List Quote → Option Quote
  | [] => none
  | q :: qs =>
    match argmaxOdds qs with
    | none => some q
    | some r => if q.odds < r.odds then some r else some q

/-- An arbitrage opportunity record as built by
`DetectionService._find_two_way_arb` (the fields the claims speak about;
`id`, event/sport/match labels and timestamps ride along unchanged). -/
structure ArbOpp where
  outcome1 : String
  bookmaker1 : String
  odds1 : ℚ
  outcome2 : String
  bookmaker2 : String
  odds2 : ℚ
  arb_percentage : ℚ
  profit_percentage : ℚ
  roi : ℚ
  status : String
deriving Repr, DecidableEq

/-- `DetectionService._find_two_way_arb` on one (event, sport, match,
market) group: requires exactly 2 distinct outcomes, takes the best
(first-seen-maximal) quote per outcome, and emits one record iff
`(1/odds1 + 1/odds2) * 100 < 100`. -/
def findTwoWayArb (g : List Quote) : List ArbOpp :=
  match uniqueVals (g.map Quote.outcome) with
  | [out1, out2] =>
    let rows1 := g.filter (fun q => q.outcome = out1)
    let rows2 := g.filter (fun q => q.outcome = out2)
    match argmaxOdds rows1, argmaxOdds rows2 with
    | some b1, some b2 =>
      let arbp := (1 / b1.odds + 1 / b2.odds) * 100
      if arbp < 100 then
        [{ outcome1 := out1, bookmaker1 := b1.bookmaker, odds1 := b1.odds,
           outcome2 := out2, bookmaker2 := b2.bookmaker, odds2 := b2.odds,
           arb_percentage := round2 arbp,
           profit_percentage := round2 (100 - arbp),
           roi := round2 (100 - arbp),
           status := "active" }]
      else []
    | _, _ => []
  | _ => []

theorem argmaxOdds_mem : ∀ {l : List Quote} {q : Quote},
    argmaxOdds l = some q → q ∈ l := by
  intro l
  induction l with
  | nil => intro q h; simp [argmaxOdds] at h
  | cons x xs ih =>
    intro q h
    simp only [argmaxOdds] at h
    cases hx : argmaxOdds xs with
    | none => rw [hx] at h; simp at h; simp [h]
    | some r =>
      rw [hx] at h
      by_cases hlt : x.odds < r.odds
      · simp [hlt] at h; subst h; exact List.mem_cons_of_mem _ (ih hx)
      · simp [hlt] at h; simp [h]

theorem argmaxOdds_le : ∀ {l : List Quote} {q : Quote},
    argmaxOdds l = some q → ∀ r ∈ l, r.odds ≤ q.odds := by
  intro l
  induction l with
  | nil => intro q h; simp [argmaxOdds] at h
  | cons x xs ih =>
    intro q h r hr
    simp only [argmaxOdds] at h
    cases hx : argmaxOdds xs with
    | none =>
      rw [hx] at h; simp at h; subst h
      cases xs with
      | nil => simp at hr; simp [hr]
      | cons y ys => simp [argmaxOdds] at hx; cases hx' : argmaxOdds ys <;>
          rw [hx'] at hx <;> simp at hx <;> split at hx <;> simp_all
    | some m =>
      rw [hx] at h
      rcases List.mem_cons.mp hr with h1 | h2
      · subst h1
        by_cases hlt : r.odds < m.odds
        · simp [hlt] at h; subst h; exact le_of_lt hlt
        · simp [hlt] at h; subst h; exact le_refl _
      · by_cases hlt : x.odds < m.odds
        · simp [hlt] at h; subst h; exact ih hx r h2
        · simp [hlt] at h; subst h
          exact le_trans (ih hx r h2) (le_of_not_lt hlt)

theorem findTwoWayArb_eq (g : List Quote) (out1 out2 : String) (b1 b2 : Quote)
    (h : uniqueVals (g.map Quote.outcome) = [out1, out2])
    (h1 : argmaxOdds (g.filter (fun q => q.outcome = out1)) = some b1)
    (h2 : argmaxOdds (g.filter (fun q => q.outcome = out2)) = some b2) :
    findTwoWayArb g =
      (if (1 / b1.odds + 1 / b2.odds) * 100 < 100 then
        [{ outcome1 := out1, bookmaker1 := b1.bookmaker, odds1 := b1.odds,
           outcome2 := out2, bookmaker2 := b2.bookmaker, odds2 := b2.odds,
           arb_percentage := round2 ((1 / b1.odds + 1 / b2.odds) * 100),
           profit_percentage := round2 (100 - (1 / b1.odds + 1 / b2.odds) * 100),
           roi := round2 (100 - (1 / b1.odds + 1 / b2.odds) * 100),
           status := "active" }]
      else []) := by
  unfold findTwoWayArb
  rw [h]
  simp only
  rw [h1, h2]

/-- C2: for a 2-outcome market group with per-outcome best odds O1, O2
(first-seen-maximal), the detector emits an opportunity iff
1/O1 + 1/O2 < 1, with arb_percentage = 100·(1/O1 + 1/O2) and
profit_percentage = 100·(1 − (1/O1 + 1/O2)) up to 2-decimal rounding. -/
theorem find_two_way_arb_spec (g : List Quote) (out1 out2 : String) (b1 b2 : Quote)
    (h : uniqueVals (g.map Quote.outcome) = [out1, out2])
    (h1 : argmaxOdds (g.filter (fun q => q.outcome = out1)) = some b1)
    (h2 : argmaxOdds (g.filter (fun q => q.outcome = out2)) = some b2) :
    (∀ q ∈ g, q.outcome = out1 → q.odds ≤ b1.odds) ∧
    (∀ q ∈ g, q.outcome = out2 → q.odds ≤ b2.odds) ∧
    (findTwoWayArb g ≠ [] ↔ 1 / b1.odds + 1 / b2.odds < 1) ∧
    (∀ a ∈ findTwoWayArb g,
      a.odds1 = b1.odds ∧ a.odds2 = b2.odds ∧
      a.bookmaker1 = b1.bookmaker ∧ a.bookmaker2 = b2.bookmaker ∧
      a.arb_percentage = round2 (100 * (1 / b1.odds + 1 / b2.odds)) ∧
      a.profit_percentage = round2 (100 * (1 - (1 / b1.odds + 1 / b2.odds)))) := by
  have heq := findTwoWayArb_eq g out1 out2 b1 b2 h h1 h2
  refine ⟨?_, ?_, ?_, ?_⟩
  · intro q hq hout
    exact argmaxOdds_le h1 q (List.mem_filter.mpr ⟨hq, by simp [hout]⟩)
  · intro q hq hout
    exact argmaxOdds_le h2 q (List.mem_filter.mpr ⟨hq, by simp [hout]⟩)
  · rw [heq]
    by_cases hc : (1 / b1.odds + 1 / b2.odds) * 100 < 100
    · simp only [hc, if_pos]
      constructor
      · intro _; linarith
      · intro _; simp
    · simp only [hc, if_neg, not_false_iff]
      constructor
      · intro hne; exact absurd rfl hne
      · intro hlt; exact absurd (by linarith) hc
  · intro a ha
    rw [heq] at ha
    split at ha
    · simp only [List.mem_singleton] at ha
      subst ha
      refine ⟨rfl, rfl, rfl, rfl, ?_, ?_⟩
      · simp only [round2]; ring_nf
      · simp only [round2]; ring_nf
    · simp at ha

def demoArbQ1 : Quote := ⟨"BookA", "Home", 21/10, none⟩

def demoArbQ2 : Quote := ⟨"BookB", "Away", 41/20, none⟩

theorem find_two_way_arb_spec_witness :
    uniqueVals ([demoArbQ1, demoArbQ2].map Quote.outcome) = ["Home", "Away"] ∧
    argmaxOdds ([demoArbQ1, demoArbQ2].filter (fun q => q.outcome = "Home")) =
      some demoArbQ1 ∧
    argmaxOdds ([demoArbQ1, demoArbQ2].filter (fun q => q.outcome = "Away")) =
      some demoArbQ2 ∧
    (findTwoWayArb [demoArbQ1, demoArbQ2] ≠ [] ↔
      1 / demoArbQ1.odds + 1 / demoArbQ2.odds < 1) :=
  ⟨by simp [uniqueVals, demoArbQ1, demoArbQ2], by rfl, by rfl,
   (find_two_way_arb_spec [demoArbQ1, demoArbQ2] "Home" "Away" demoArbQ1 demoArbQ2
     (by simp [uniqueVals, demoArbQ1, demoArbQ2]) (by rfl) (by rfl)).2.2.1⟩

/-- An arbitrage record as resolved by `ArbitrageService.get_arbitrage_by_id`
(the fields the stake calculator reads).  `odds3` is absent for two-way
records (`if odds3:` in the source; odds are > 1 so truthiness coincides
with presence — the CSV round-trip NaN is a persistence artefact outside
this model per the spec's exclusion of persistence mechanics). -/
structure ArbRow where
  id : String
  outcome1 : String
  odds1 : ℚ
  outcome2 : String
  odds2 : ℚ
  odds3 : Option ℚ
deriving Repr, DecidableEq

/-- `ArbitrageService.get_arbitrage_by_id`: the first stored record whose
id matches, `none` when there is none. -/
def getArbitrageById (store : List ArbRow) (arbId : String) : Option ArbRow :=
  store.find? (fun r => r.id = arbId)

/-- The payload of `ArbitrageService.calculate_stakes` (stakes keyed
positionally by leg; the source keys them by outcome label). -/
structure StakeResult where
  stake1 : ℚ
  stake2 : ℚ
  stake3 : Option ℚ
  total_stake : ℚ
  expected_return : ℚ
  expected_profit : ℚ
deriving Repr, DecidableEq

/-- `ArbitrageService.calculate_stakes`: proportional split
`stake_i = total_stake * (1/odds_i) / total_prob`, all payload figures
rounded to 2 decimals; `none` when the id does not resolve. -/
def calculateStakes (store : List ArbRow) (arbId : String) (total_stake : ℚ) :
    Option StakeResult :=
  match getArbitrageById store arbId with
  | none => none
  | some arb =>
    match arb.odds3 with
    | some odds3 =>
      let total_prob := 1 / arb.odds1 + 1 / arb.odds2 + 1 / odds3
      let stake1 := total_stake * (1 / arb.odds1) / total_prob
      let stake2 := total_stake * (1 / arb.odds2) / total_prob
      let stake3 := total_stake * (1 / odds3) / total_prob
      let expected_return := stake1 * arb.odds1
      some { stake1 := round2 stake1, stake2 := round2 stake2,
             stake3 := some (round2 stake3),
             total_stake := round2 total_stake,
             expected_return := round2 expected_return,
             expected_profit := round2 (expected_return - total_stake) }
    | none =>
      let total_prob := 1 / arb.odds1 + 1 / arb.odds2
      let stake1 := total_stake * (1 / arb.odds1) / total_prob
      let stake2 := total_stake * (1 / arb.odds2) / total_prob
      let expected_return := stake1 * arb.odds1
      some { stake1 := round2 stake1, stake2 := round2 stake2,
             stake3 := none,
             total_stake := round2 total_stake,
             expected_return := round2 expected_return,
             expected_profit := round2 (expected_return - total_stake) }

/-- C4: for every id resolving to a known arbitrage record and every
total_stake > 0, the calculator returns stakes
`s_i = total_stake*(1/odds_i)/Σ(1/odds_j)` (rounded to 2 decimals in the
payload), which satisfy `Σ s_i = total_stake` and equal returns
`s_i*odds_i` across legs exactly before rounding, with
expected_return = s_1*odds_1 and expected_profit = expected_return −
total_stake. -/
theorem calculate_stakes_spec (store : List ArbRow) (arbId : String)
    (total_stake : ℚ) (arb : ArbRow)
    (hfind : getArbitrageById store arbId = some arb)
    (hpos : 0 < total_stake)
    (h1 : 0 < arb.odds1) (h2 : 0 < arb.odds2)
    (h3 : ∀ o3 ∈ arb.odds3, 0 < o3) :
    ∃ res : StakeResult, calculateStakes store arbId total_stake = some res ∧
      match arb.odds3 with
      | none =>
        ∃ s1 s2 : ℚ,
          s1 = total_stake * (1 / arb.odds1) / (1 / arb.odds1 + 1 / arb.odds2) ∧
          s2 = total_stake * (1 / arb.odds2) / (1 / arb.odds1 + 1 / arb.odds2) ∧
          res.stake1 = round2 s1 ∧ res.stake2 = round2 s2 ∧ res.stake3 = none ∧
          s1 + s2 = total_stake ∧
          s1 * arb.odds1 = s2 * arb.odds2 ∧
          res.expected_return = round2 (s1 * arb.odds1) ∧
          res.expected_profit = round2 (s1 * arb.odds1 - total_stake)
      | some o3 =>
        ∃ s1 s2 s3 : ℚ,
          s1 = total_stake * (1 / arb.odds1) /
                (1 / arb.odds1 + 1 / arb.odds2 + 1 / o3) ∧
          s2 = total_stake * (1 / arb.odds2) /
                (1 / arb.odds1 + 1 / arb.odds2 + 1 / o3) ∧
          s3 = total_stake * (1 / o3) /
                (1 / arb.odds1 + 1 / arb.odds2 + 1 / o3) ∧
          res.stake1 = round2 s1 ∧ res.stake2 = round2 s2 ∧
          res.stake3 = some (round2 s3) ∧
          s1 + s2 + s3 = total_stake ∧
          s1 * arb.odds1 = s2 * arb.odds2 ∧ s2 * arb.odds2 = s3 * o3 ∧
          res.expected_return = round2 (s1 * arb.odds1) ∧
          res.expected_profit = round2 (s1 * arb.odds1 - total_stake) := by
  cases ho3 : arb.odds3 with
  | none =>
    have hp : 1 / arb.odds1 + 1 / arb.odds2 ≠ 0 := by positivity
    have hcalc : calculateStakes store arbId total_stake =
        some { stake1 := round2 (total_stake * (1 / arb.odds1) /
                  (1 / arb.odds1 + 1 / arb.odds2)),
               stake2 := round2 (total_stake * (1 / arb.odds2) /
                  (1 / arb.odds1 + 1 / arb.odds2)),
               stake3 := none,
               total_stake := round2 total_stake,
               expected_return := round2 (total_stake * (1 / arb.odds1) /
                  (1 / arb.odds1 + 1 / arb.odds2) * arb.odds1),
               expected_profit := round2 (total_stake * (1 / arb.odds1) /
                  (1 / arb.odds1 + 1 / arb.odds2) * arb.odds1 - total_stake) } := by
      unfold calculateStakes
      rw [hfind]
      simp only [ho3]
    refine ⟨_, hcalc, ?_⟩
    refine ⟨_, _, rfl, rfl, rfl, rfl, rfl, ?_, ?_, rfl, rfl⟩
    · field_simp
      ring
    · field_simp
      ring
  | some o3 =>
    have ho3pos : 0 < o3 := h3 o3 (by rw [ho3]; exact rfl)
    have hp : 1 / arb.odds1 + 1 / arb.odds2 + 1 / o3 ≠ 0 := by positivity
    have hcalc : calculateStakes store arbId total_stake =
        some { stake1 := round2 (total_stake * (1 / arb.odds1) /
                  (1 / arb.odds1 + 1 / arb.odds2 + 1 / o3)),
               stake2 := round2 (total_stake * (1 / arb.odds2) /
                  (1 / arb.odds1 + 1 / arb.odds2 + 1 / o3)),
               stake3 := some (round2 (total_stake * (1 / o3) /
                  (1 / arb.odds1 + 1 / arb.odds2 + 1 / o3))),
               total_stake := round2 total_stake,
               expected_return := round2 (total_stake * (1 / arb.odds1) /
                  (1 / arb.odds1 + 1 / arb.odds2 + 1 / o3) * arb.odds1),
               expected_profit := round2 (total_stake * (1 / arb.odds1) /
                  (1 / arb.odds1 + 1 / arb.odds2 + 1 / o3) * arb.odds1 -
                  total_stake) } := by
      unfold calculateStakes
      rw [hfind]
      simp only [ho3]
    refine ⟨_, hcalc, ?_⟩
    refine ⟨_, _, _, rfl, rfl, rfl, rfl, rfl, rfl, ?_, ?_, ?_, rfl, rfl⟩
    · field_simp
      ring
    · field_simp
      ring
    · field_simp
      ring

def demoArbRow : ArbRow := ⟨"arb1", "Home", 21/10, "Away", 41/20, none⟩

theorem calculate_stakes_spec_witness :
    getArbitrageById [demoArbRow] "arb1" = some demoArbRow ∧
    (0 : ℚ) < 100 ∧
    ∃ res : StakeResult, calculateStakes [demoArbRow] "arb1" 100 = some res :=
  ⟨rfl, by norm_num,
   match calculate_stakes_spec [demoArbRow] "arb1" 100 demoArbRow rfl (by norm_num)
       (by norm_num [demoArbRow]) (by norm_num [demoArbRow]) (by simp [demoArbRow]) with
   | ⟨res, hres, _⟩ => ⟨res, hres⟩⟩

/-- A stored row of the unified opportunity collection
(opportunities.csv), restricted to the fields the lifecycle manager reads
and writes.  `expires_at` is the parsed expiry instant; `none` models a
missing or unparseable timestamp (`pd.isna`, or a
`datetime.fromisoformat` failure — both treated as not expired). -/
structure StoredOpp where
  id : String
  type : String
  sport : String
  roi : ℚ
  profit_percentage : Option ℚ
  status : String
  expires_at : Option ℤ
deriving Repr, DecidableEq

/-- The expiry test of `_cleanup_expired_opportunities` (`now > expiry`). -/
def isExpired (now : ℤ) (o : StoredOpp) : Bool :=
  match o.expires_at with
  | none => false
  | some t => now > t

/-- `OpportunityService._cleanup_expired_opportunities` on the stored
collection: every row whose expiry has passed gets status `expired`
(regardless of its current status); every other field is unchanged. -/
def cleanupExpired (now : ℤ) (store : List StoredOpp) : List StoredOpp :=
  store.map (fun o => if isExpired now o then { o with status := "expired" } else o)

/-- `OpportunityService.mark_opportunity_as_used`: set the status of the
first row whose id matches to `removed` and report `true`; report `false`
and leave the collection unchanged when no row matches. -/
def markOpportunityAsUsed (store : List StoredOpp) (oppId : String) :
    Bool × List StoredOpp :=
  match store with
  | [] => (false, [])
  | o :: rest =>
    if o.id = oppId then (true, { o with status := "removed" } :: rest)
    else
      let r := markOpportunityAsUsed rest oppId
      (r.1, o :: r.2)

/-- One `compute_all_opportunities` cycle acting on the stored
collection, with the freshly detected records (the union of the four
detectors' outputs, already stamped active) as a parameter: the prior
collection is swept in place (`_cleanup_expired_opportunities`), and then
— only when at least one fresh record exists — the whole file is replaced
by the fresh records alone (`safe_write_csv` with mode `w`). -/
def computeCycle (now : ℤ) (fresh : List StoredOpp) (store : List StoredOpp) :
    List StoredOpp :=
  let swept := cleanupExpired now store
  if fresh.isEmpty then swept else fresh

def demoPriorOpp : StoredOpp :=
  ⟨"old1", "arbitrage", "Football", 5, some 5, "active", some 100⟩

def demoFreshOpp : StoredOpp :=
  ⟨"new1", "ev", "Tennis", 3, some 3, "active", some 200⟩

/-- C1 counterexample: a prior stored entry does not survive a compute
cycle that detects at least one fresh opportunity — the stored collection
afterwards is exactly the fresh records, and the prior id is gone. -/
theorem compute_cycle_not_union :
    demoPriorOpp.id = "old1" ∧
    computeCycle 0 [demoFreshOpp] [demoPriorOpp] = [demoFreshOpp] ∧
    "old1" ∉ (computeCycle 0 [demoFreshOpp] [demoPriorOpp]).map StoredOpp.id := by
  refine ⟨rfl, rfl, ?_⟩
  simp [computeCycle, demoFreshOpp]

/-- C1 (amended): a compute cycle first sweeps the prior collection
(flipping overdue entries to expired), but then stores only the freshly
detected records whenever there is at least one — the prior entries,
swept or not, are destroyed; the swept prior collection is kept only when
the cycle detected nothing. -/
theorem compute_cycle_spec (now : ℤ) (fresh store : List StoredOpp) :
    (fresh = [] → computeCycle now fresh store = cleanupExpired now store) ∧
    (fresh ≠ [] → computeCycle now fresh store = fresh ∧
      ∀ p ∈ store, p.id ∉ fresh.map StoredOpp.id →
        p.id ∉ (computeCycle now fresh store).map StoredOpp.id) := by
  constructor
  · intro h
    simp [computeCycle, h]
  · intro h
    have he : fresh.isEmpty = false := by
      cases fresh with
      | nil => exact absurd rfl h
      | cons a l => rfl
    constructor
    · simp [computeCycle, he]
    · intro p _ hnot
      simp only [computeCycle, he, if_neg, Bool.false_eq_true, not_false_iff]
      exact hnot

theorem compute_cycle_spec_witness :
    ([demoFreshOpp] : List StoredOpp) ≠ [] ∧
    computeCycle 0 [demoFreshOpp] [demoPriorOpp] = [demoFreshOpp] :=
  ⟨by simp, ((compute_cycle_spec 0 [demoFreshOpp] [demoPriorOpp]).2 (by simp)).1⟩

/-- One lifecycle mutation of the stored collection: a synchronous sweep
at some instant, or a mark-removed call for some id.  (The compute
cycle's replacement write swaps rows wholesale and is not a status
transition of any surviving entry.) -/
inductive LifecycleOp where
  | sweep (now : ℤ)
  | markUsed (oppId : String)
deriving Repr, DecidableEq

/-- Apply one lifecycle mutation to the stored collection. -/
def applyOp (op : LifecycleOp) (store : List StoredOpp) : List StoredOpp :=
  match op with
  | .sweep now => cleanupExpired now store
  | .markUsed oppId => (markOpportunityAsUsed store oppId).2

/-- Run a sequence of lifecycle mutations left to right. -/
def runOps (ops : List LifecycleOp) (store : List StoredOpp) : List StoredOpp :=
  ops.foldl (fun s op => applyOp op s) store

theorem markUsed_get? : ∀ (store : List StoredOpp) (oppId : String) (i : ℕ)
    (o' : StoredOpp), ((markOpportunityAsUsed store oppId).2).get? i = some o' →
    ∃ o : StoredOpp, store.get? i = some o ∧
      (o' = o ∨ o' = { o with status := "removed" }) := by
  intro store
  induction store with
  | nil => intro oppId i o' h; simp [markOpportunityAsUsed] at h
  | cons x rest ih =>
    intro oppId i o' h
    simp only [markOpportunityAsUsed] at h
    by_cases hid : x.id = oppId
    · rw [if_pos hid] at h
      cases i with
      | zero => simp at h; exact ⟨x, rfl, Or.inr h.symm⟩
      | succ n => simp at h; exact ⟨o', by simpa using h, Or.inl rfl⟩
    · rw [if_neg hid] at h
      cases i with
      | zero => simp at h; exact ⟨x, rfl, Or.inl h.symm⟩
      | succ n =>
        simp only [List.get?_cons_succ] at h ⊢
        exact ih oppId n o' h

theorem applyOp_get? (op : LifecycleOp) (store : List StoredOpp) (i : ℕ)
    (o' : StoredOpp) (h : (applyOp op store).get? i = some o') :
    ∃ o : StoredOpp, store.get? i = some o ∧
      (o'.status = o.status ∨ o'.status = "expired" ∨ o'.status = "removed") := by
  cases op with
  | sweep now =>
    simp only [applyOp, cleanupExpired, List.get?_map] at h
    cases hg : store.get? i with
    | none => rw [hg] at h; simp at h
    | some o =>
      rw [hg] at h
      simp only [Option.map_some'] at h
      refine ⟨o, rfl, ?_⟩
      by_cases he : isExpired now o
      · rw [if_pos he] at h
        right; left
        rw [← Option.some_inj.mp h]
      · rw [if_neg he] at h
        left
        rw [← Option.some_inj.mp h]
  | markUsed oppId =>
    obtain ⟨o, hg, ho⟩ := markUsed_get? store oppId i o' h
    refine ⟨o, hg, ?_⟩
    rcases ho with h1 | h1
    · left; rw [h1]
    · right; right; rw [h1]

theorem markUsed_length : ∀ (store : List StoredOpp) (oppId : String),
    ((markOpportunityAsUsed store oppId).2).length = store.length := by
  intro store
  induction store with
  | nil => intro oppId; rfl
  | cons x rest ih =>
    intro oppId
    simp only [markOpportunityAsUsed]
    by_cases hid : x.id = oppId
    · rw [if_pos hid]
      simp
    · rw [if_neg hid]
      simp [ih]

theorem applyOp_length (op : LifecycleOp) (store : List StoredOpp) :
    (applyOp op store).length = store.length := by
  cases op with
  | sweep now => simp [applyOp, cleanupExpired]
  | markUsed oppId => exact markUsed_length store oppId

theorem runOps_length : ∀ (ops : List LifecycleOp) (store : List StoredOpp),
    (runOps ops store).length = store.length := by
  intro ops
  induction ops with
  | nil => intro store; rfl
  | cons op ops ih =>
    intro store
    have : runOps (op :: ops) store = runOps ops (applyOp op store) := rfl
    rw [this, ih, applyOp_length]

/-- C3 (amended): across every sequence of sweeps and mark-removed calls,
an entry's status only ever moves to expired or removed and never back to
active; but the sweep stamps expired over any overdue entry regardless of
its current status (so removed→expired does occur), and mark-removed
stamps removed regardless of the current status (so expired→removed does
occur). -/
theorem lifecycle_status_spec : ∀ (ops : List LifecycleOp)
    (store : List StoredOpp) (i : ℕ) (o o' : StoredOpp),
    store.get? i = some o → (runOps ops store).get? i = some o' →
    (o'.status = o.status ∨ o'.status = "expired" ∨ o'.status = "removed") ∧
    (o.status ≠ "active" → o'.status ≠ "active") := by
  intro ops
  induction ops with
  | nil =>
    intro store i o o' hg hg'
    simp only [runOps, List.foldl_nil] at hg'
    rw [hg] at hg'
    obtain rfl := Option.some_inj.mp hg'
    exact ⟨Or.inl rfl, fun h => h⟩
  | cons op ops ih =>
    intro store i o o' hg hg'
    have hrun : runOps (op :: ops) store = runOps ops (applyOp op store) := rfl
    rw [hrun] at hg'
    have hlt : i < (applyOp op store).length := by
      have h1 : i < (runOps ops (applyOp op store)).length :=
        (List.get?_eq_some.mp hg').1
      rw [runOps_length] at h1
      exact h1
    obtain ⟨om, hmg⟩ :
        ∃ om : StoredOpp, (applyOp op store).get? i = some om := by
      cases hmg : (applyOp op store).get? i with
      | some om => exact ⟨om, rfl⟩
      | none =>
        have hle := List.get?_eq_none.mp hmg
        omega
    obtain ⟨o2, hg2, hom⟩ := applyOp_get? op store i om hmg
    rw [hg] at hg2
    obtain rfl := Option.some_inj.mp hg2
    have hrec := ih (applyOp op store) i om o' hmg hg'
    constructor
    · rcases hrec.1 with h1 | h1 | h1
      · rw [h1]; exact hom
      · right; left; exact h1
      · right; right; exact h1
    · intro hna
      apply hrec.2
      rcases hom with h1 | h1 | h1
      · rw [h1]; exact hna
      · rw [h1]; intro hc; exact absurd hc (by decide)
      · rw [h1]; intro hc; exact absurd hc (by decide)

def demoRemovedOpp : StoredOpp :=
  ⟨"r1", "arbitrage", "Football", 5, some 5, "removed", some 0⟩

/-- C3 counterexample: sweeping at instant 1 flips an already-removed
entry whose expiry instant 0 has passed back to expired — the transition
removed→expired does occur, contradicting the claim. -/
theorem sweep_flips_removed_to_expired :
    demoRemovedOpp.status = "removed" ∧
    runOps [LifecycleOp.sweep 1] [demoRemovedOpp] =
      [{ demoRemovedOpp with status := "expired" }] :=
  ⟨rfl, rfl⟩

theorem lifecycle_status_spec_witness :
    (runOps [LifecycleOp.markUsed "old1"] [demoPriorOpp]).get? 0 =
      some { demoPriorOpp with status := "removed" } ∧
    (({ demoPriorOpp with status := "removed" } : StoredOpp).status =
        demoPriorOpp.status ∨
     ({ demoPriorOpp with status := "removed" } : StoredOpp).status = "expired" ∨
     ({ demoPriorOpp with status := "removed" } : StoredOpp).status = "removed") :=
  ⟨by rfl,
   (lifecycle_status_spec [LifecycleOp.markUsed "old1"] [demoPriorOpp] 0
      demoPriorOpp { demoPriorOpp with status := "removed" } (by rfl) (by rfl)).1⟩

/-- C10: mark-removed changes at most the status of the first entry whose
id matches (to removed), leaving its other fields and every other entry
untouched; with no matching entry it reports false and leaves the
collection unchanged. -/
theorem mark_opportunity_as_used_spec (store : List StoredOpp) (oppId : String) :
    ((markOpportunityAsUsed store oppId).1 = false →
      (∀ o ∈ store, o.id ≠ oppId) ∧
      (markOpportunityAsUsed store oppId).2 = store) ∧
    ((markOpportunityAsUsed store oppId).1 = true →
      ∃ pre o post, store = pre ++ o :: post ∧
        (∀ p ∈ pre, p.id ≠ oppId) ∧ o.id = oppId ∧
        (markOpportunityAsUsed store oppId).2 =
          pre ++ { o with status := "removed" } :: post) := by
  induction store with
  | nil =>
    constructor
    · intro _
      exact ⟨fun o ho => absurd ho (List.not_mem_nil o), rfl⟩
    · intro hfound
      exact absurd hfound (by simp [markOpportunityAsUsed])
  | cons x rest ih =>
    by_cases hid : x.id = oppId
    · constructor
      · intro hfound
        exact absurd hfound (by simp [markOpportunityAsUsed, hid])
      · intro _
        refine ⟨[], x, rest, rfl, by simp, hid, ?_⟩
        simp [markOpportunityAsUsed, hid]
    · have hstep1 : (markOpportunityAsUsed (x :: rest) oppId).1 =
          (markOpportunityAsUsed rest oppId).1 := by
        simp [markOpportunityAsUsed, hid]
      have hstep2 : (markOpportunityAsUsed (x :: rest) oppId).2 =
          x :: (markOpportunityAsUsed rest oppId).2 := by
        simp [markOpportunityAsUsed, hid]
      constructor
      · intro hfound
        rw [hstep1] at hfound
        obtain ⟨hall, heq⟩ := ih.1 hfound
        constructor
        · intro o ho
          rcases List.mem_cons.mp ho with h1 | h1
          · rw [h1]; exact hid
          · exact hall o h1
        · rw [hstep2, heq]
      · intro hfound
        rw [hstep1] at hfound
        obtain ⟨pre, o, post, hsplit, hpre, ho, heq⟩ := ih.2 hfound
        refine ⟨x :: pre, o, post, by rw [hsplit, List.cons_append], ?_, ho, ?_⟩
        · intro p hp
          rcases List.mem_cons.mp hp with h1 | h1
          · rw [h1]; exact hid
          · exact hpre p h1
        · rw [hstep2, heq]
          rfl

theorem mark_opportunity_as_used_spec_witness :
    (markOpportunityAsUsed [demoRemovedOpp, demoPriorOpp] "old1").1 = true ∧
    ∃ pre o post, [demoRemovedOpp, demoPriorOpp] = pre ++ o :: post ∧
      (∀ p ∈ pre, p.id ≠ "old1") ∧ o.id = "old1" ∧
      (markOpportunityAsUsed [demoRemovedOpp, demoPriorOpp] "old1").2 =
        pre ++ { o with status := "removed" } :: post :=
  ⟨by rfl,
   (mark_opportunity_as_used_spec [demoRemovedOpp, demoPriorOpp] "old1").2 (by rfl)⟩

/-- `DetectionService.EV_MIN_EDGE`. -/
def EV_MIN_EDGE : ℚ := 2

/-- An EV opportunity record as built by `DetectionService.detect_ev`
(the claim-relevant fields). -/
structure EvOpp where
  bookmaker : String
  offered_odds : ℚ
  fair_odds : ℚ
  fair_probability : ℚ
  implied_probability : ℚ
  expected_value : ℚ
  edge_percentage : ℚ
  roi : ℚ
  recommended_stake : ℚ
  status : String
deriving Repr, DecidableEq

/-- `group['odds'].mean()`: the arithmetic mean of the group's odds. -/
def avgOdds (g : List Quote) : ℚ := (g.map Quote.odds).sum / g.length

/-- The record `detect_ev` appends for one quote (the group's mean odds
passed in). -/
def mkEvOpp (avg : ℚ) (q : Quote) : EvOpp :=
  let fairP := 1 / avg
  let offered := q.odds
  let implied := 1 / offered
  let kelly := (offered * fairP - 1) / (offered - 1)
  { bookmaker := q.bookmaker, offered_odds := offered,
    fair_odds := round2 avg,
    fair_probability := round2 (fairP * 100),
    implied_probability := round2 (implied * 100),
    expected_value := round2 ((offered * fairP - 1) * 100),
    edge_percentage := round2 ((1 - implied / fairP) * 100),
    roi := round2 ((1 - implied / fairP) * 100),
    recommended_stake := round2 (max 0 (min (kelly * 100) 10)),
    status := "active" }

/-- `DetectionService.detect_ev` on one (event, sport, match, market,
outcome) group: a quote is emitted iff its edge percentage reaches
`EV_MIN_EDGE`. -/
def detectEvGroup (g : List Quote) : List EvOpp :=
  let avg := avgOdds g
  let fairP := 1 / avg
  g.filterMap (fun q =>
    if EV_MIN_EDGE ≤ (1 - (1 / q.odds) / fairP) * 100 then
      some (mkEvOpp avg q)
    else none)

/-- C6: with fair_odds the group mean and fair_probability its
reciprocal, a quote is emitted iff
edge = 100·(1 − (1/offered)/fair_probability) ≥ 2, and every emitted
record carries expected_value = 100·(offered·fair_probability − 1) and
recommended_stake the Kelly fraction as a percent clamped to [0, 10]
(all payload figures up to 2-decimal rounding). -/
theorem detect_ev_spec (g : List Quote) :
    (∀ r ∈ detectEvGroup g, ∃ q ∈ g,
      r.bookmaker = q.bookmaker ∧ r.offered_odds = q.odds ∧
      2 ≤ 100 * (1 - (1 / q.odds) / (1 / avgOdds g)) ∧
      r.fair_odds = round2 (avgOdds g) ∧
      r.expected_value = round2 (100 * (q.odds * (1 / avgOdds g) - 1)) ∧
      r.edge_percentage = round2 (100 * (1 - (1 / q.odds) / (1 / avgOdds g))) ∧
      r.recommended_stake = round2 (max 0 (min
        ((q.odds * (1 / avgOdds g) - 1) / (q.odds - 1) * 100) 10))) ∧
    (∀ q ∈ g, 2 ≤ 100 * (1 - (1 / q.odds) / (1 / avgOdds g)) →
      mkEvOpp (avgOdds g) q ∈ detectEvGroup g) := by
  constructor
  · intro r hr
    simp only [detectEvGroup, List.mem_filterMap] at hr
    obtain ⟨q, hq, hf⟩ := hr
    split at hf
    · obtain rfl := Option.some_inj.mp hf
      rename_i hcond
      refine ⟨q, hq, rfl, rfl, ?_, rfl, ?_, ?_, ?_⟩
      · have h2 : EV_MIN_EDGE = (2 : ℚ) := rfl
        rw [h2] at hcond
        linarith
      · show round2 ((q.odds * (1 / avgOdds g) - 1) * 100) = _
        congr 1
        ring
      · show round2 ((1 - (1 / q.odds) / (1 / avgOdds g)) * 100) = _
        congr 1
        ring
      · rfl
    · exact absurd hf (by simp)
  · intro q hq hcond
    simp only [detectEvGroup, List.mem_filterMap]
    refine ⟨q, hq, ?_⟩
    rw [if_pos ?_]
    have h2 : EV_MIN_EDGE = (2 : ℚ) := rfl
    rw [h2]
    linarith

def demoEvQ1 : Quote := ⟨"B1", "Win", 19/10, none⟩

def demoEvQ2 : Quote := ⟨"B2", "Win", 39/20, none⟩

def demoEvQ3 : Quote := ⟨"B3", "Win", 41/20, none⟩

def demoEvQ4 : Quote := ⟨"B4", "Win", 47/25, none⟩

theorem detect_ev_spec_witness :
    demoEvQ3 ∈ [demoEvQ1, demoEvQ2, demoEvQ3, demoEvQ4] ∧
    2 ≤ 100 * (1 - (1 / demoEvQ3.odds) /
      (1 / avgOdds [demoEvQ1, demoEvQ2, demoEvQ3, demoEvQ4])) ∧
    mkEvOpp (avgOdds [demoEvQ1, demoEvQ2, demoEvQ3, demoEvQ4]) demoEvQ3 ∈
      detectEvGroup [demoEvQ1, demoEvQ2, demoEvQ3, demoEvQ4] :=
  ⟨by simp, by norm_num [demoEvQ1, demoEvQ2, demoEvQ3, demoEvQ4, avgOdds],
   (detect_ev_spec [demoEvQ1, demoEvQ2, demoEvQ3, demoEvQ4]).2 demoEvQ3 (by simp)
     (by norm_num [demoEvQ1, demoEvQ2, demoEvQ3, demoEvQ4, avgOdds])⟩

/-- `DetectionService.LOW_HOLD_MAX`. -/
def LOW_HOLD_MAX : ℚ := 5/2

/-- A low-hold opportunity record as built by
`DetectionService.detect_lows` (claim-relevant fields; the Python dicts
keyed by outcome are modelled as association lists in group order). -/
structure LowOpp where
  bookmaker : String
  outcomes : List (String × ℚ)
  total_implied_probability : ℚ
  hold_percentage : ℚ
  true_probability_estimates : List (String × ℚ)
  roi : ℚ
  status : String
deriving Repr, DecidableEq

/-- `DetectionService.detect_lows` on one (event, sport, match, market,
bookmaker) group: emit iff `hold_percentage ≤ LOW_HOLD_MAX`. -/
def detectLowsGroup (bk : String) (g : List Quote) : Option LowOpp :=
  let total_implied := (g.map (fun q => 1 / q.odds)).sum
  let hold := (total_implied - 1) * 100
  if hold ≤ LOW_HOLD_MAX then
    some { bookmaker := bk,
           outcomes := g.map (fun q => (q.outcome, q.odds)),
           total_implied_probability := round2 (total_implied * 100),
           hold_percentage := round2 hold,
           true_probability_estimates :=
             g.map (fun q => (q.outcome, round2 (1 / q.odds / total_implied * 100))),
           roi := round2 ((LOW_HOLD_MAX - hold) / 2),
           status := "active" }
  else none

theorem round2_abs_le (x : ℚ) : |round2 x - x| ≤ 1/200 := by
  have h := abs_sub_round (x * 100)
  rw [abs_sub_comm] at h
  have heq : round2 x - x = (((round (x * 100) : ℤ) : ℚ) - x * 100) / 100 := by
    unfold round2
    ring
  rw [heq, abs_div]
  have h100 : |(100 : ℚ)| = 100 := by norm_num
  rw [h100]
  linarith

theorem sum_round2_close : ∀ l : List ℚ,
    |(l.map round2).sum - l.sum| ≤ l.length * (1/200) := by
  intro l
  induction l with
  | nil => simp
  | cons x xs ih =>
    simp only [List.map_cons, List.sum_cons, List.length_cons]
    have h1 := round2_abs_le x
    have habs : |round2 x + (xs.map round2).sum - (x + xs.sum)| ≤
        |round2 x - x| + |(xs.map round2).sum - xs.sum| := by
      have : round2 x + (xs.map round2).sum - (x + xs.sum) =
          (round2 x - x) + ((xs.map round2).sum - xs.sum) := by ring
      rw [this]
      exact abs_add _ _
    have hc : ((xs.length + 1 : ℕ) : ℚ) * (1/200) =
        1/200 + (xs.length : ℚ) * (1/200) := by
      push_cast
      ring
    rw [hc]
    linarith

/-- C8: a (event, market, bookmaker) group is emitted iff
hold = 100·(Σ 1/odds − 1) ≤ 2.5; the emitted record's unrounded
true-probability estimates sum to exactly 100%, the stored (rounded)
ones to 100% within n/200, and roi = (2.5 − hold)/2 up to rounding. -/
theorem detect_lows_spec (bk : String) (g : List Quote)
    (hne : g ≠ []) (hodds : ∀ q ∈ g, 0 < q.odds) :
    ((detectLowsGroup bk g).isSome ↔
      100 * ((g.map (fun q => 1 / q.odds)).sum - 1) ≤ 5/2) ∧
    ∀ r, detectLowsGroup bk g = some r →
      r.hold_percentage = round2 (100 * ((g.map (fun q => 1 / q.odds)).sum - 1)) ∧
      r.roi = round2 ((5/2 - 100 * ((g.map (fun q => 1 / q.odds)).sum - 1)) / 2) ∧
      (g.map (fun q =>
        1 / q.odds / (g.map (fun p => 1 / p.odds)).sum * 100)).sum = 100 ∧
      r.true_probability_estimates = g.map (fun q =>
        (q.outcome, round2 (1 / q.odds / (g.map (fun p => 1 / p.odds)).sum * 100))) ∧
      |(r.true_probability_estimates.map Prod.snd).sum - 100| ≤
        g.length * (1/200) := by
  have htot : 0 < (g.map (fun q => 1 / q.odds)).sum := by
    apply List.sum_pos
    · intro x hx
      obtain ⟨q, hq, rfl⟩ := List.mem_map.mp hx
      have := hodds q hq
      positivity
    · intro hmap
      exact hne (List.map_eq_nil_iff.mp hmap)
  have hsum100 : (g.map (fun q =>
      1 / q.odds / (g.map (fun p => 1 / p.odds)).sum * 100)).sum = 100 := by
    have hrw : g.map (fun q =>
        1 / q.odds / (g.map (fun p => 1 / p.odds)).sum * 100) =
        g.map (fun q =>
          (100 / (g.map (fun p => 1 / p.odds)).sum) * (1 / q.odds)) := by
      apply List.map_congr_left
      intro q _
      ring
    rw [hrw, List.sum_map_mul_left]
    field_simp
  constructor
  · unfold detectLowsGroup
    by_cases hc : ((g.map (fun q => 1 / q.odds)).sum - 1) * 100 ≤ LOW_HOLD_MAX
    · rw [if_pos hc]
      simp only [Option.isSome_some, true_iff]
      have h25 : LOW_HOLD_MAX = (5/2 : ℚ) := rfl
      rw [h25] at hc
      linarith
    · rw [if_neg hc]
      simp only [Option.isSome_none, Bool.false_eq_true, false_iff]
      have h25 : LOW_HOLD_MAX = (5/2 : ℚ) := rfl
      rw [h25] at hc
      intro hle
      exact hc (by linarith)
  · intro r hr
    unfold detectLowsGroup at hr
    dsimp only at hr
    split at hr
    · obtain rfl := Option.some_inj.mp hr
      refine ⟨?_, ?_, hsum100, rfl, ?_⟩
      · show round2 (((g.map (fun q => 1 / q.odds)).sum - 1) * 100) = _
        congr 1
        ring
      · show round2 ((LOW_HOLD_MAX - ((g.map (fun q => 1 / q.odds)).sum - 1) * 100) / 2) = _
        congr 1
        have h25 : LOW_HOLD_MAX = (5/2 : ℚ) := rfl
        rw [h25]
        ring
      · show |((g.map (fun q =>
            (q.outcome, round2 (1 / q.odds / (g.map (fun p => 1 / p.odds)).sum * 100)))).map
              Prod.snd).sum - 100| ≤ g.length * (1/200)
        rw [List.map_map]
        have hmm : (Prod.snd ∘ fun q : Quote =>
            (q.outcome, round2 (1 / q.odds / (g.map (fun p => 1 / p.odds)).sum * 100))) =
            (fun q : Quote =>
              round2 (1 / q.odds / (g.map (fun p => 1 / p.odds)).sum * 100)) := rfl
        rw [hmm]
        have hcomp : (g.map (fun q : Quote =>
            round2 (1 / q.odds / (g.map (fun p => 1 / p.odds)).sum * 100))) =
            ((g.map (fun q : Quote =>
              1 / q.odds / (g.map (fun p => 1 / p.odds)).sum * 100)).map round2) := by
          rw [List.map_map]
          rfl
        rw [hcomp]
        have hb := sum_round2_close (g.map (fun q : Quote =>
          1 / q.odds / (g.map (fun p => 1 / p.odds)).sum * 100))
        rw [hsum100, List.length_map] at hb
        exact hb
    · exact absurd hr (by simp)

def demoLowQ1 : Quote := ⟨"B", "Over", 2, none⟩

def demoLowQ2 : Quote := ⟨"B", "Under", 2, none⟩

theorem detect_lows_spec_witness :
    ([demoLowQ1, demoLowQ2] : List Quote) ≠ [] ∧
    (∀ q ∈ [demoLowQ1, demoLowQ2], 0 < q.odds) ∧
    ((detectLowsGroup "B" [demoLowQ1, demoLowQ2]).isSome ↔
      100 * (([demoLowQ1, demoLowQ2].map (fun q => 1 / q.odds)).sum - 1) ≤ 5/2) := by
  have hodds : ∀ q ∈ [demoLowQ1, demoLowQ2], 0 < q.odds := by
    intro q hq
    rcases List.mem_cons.mp hq with rfl | hq2
    · norm_num [demoLowQ1]
    · rcases List.mem_cons.mp hq2 with rfl | hq3
      · norm_num [demoLowQ2]
      · exact absurd hq3 (List.not_mem_nil q)
  exact ⟨by simp, hodds,
    (detect_lows_spec "B" [demoLowQ1, demoLowQ2] (by simp) hodds).1⟩

/-- `DetectionService.MIDDLE_MIN_GAP`. -/
def MIDDLE_MIN_GAP : ℚ := 1/2

/-- The character filter of `_extract_lines`:
`lambda x: x.isdigit() or x in '.-'`. -/
def isLineChar (c : Char) : Bool := c.isDigit || c = '.' || c = '-'

/-- `''.join(filter(isLineChar, s))`: the retained characters of the
whole string, in order. -/
def keepLineChars (s : String) : List Char := s.toList.filter isLineChar

/-- Numeric value of a digit run (most significant first). -/
def digitsVal (cs : List Char) : ℕ :=
  cs.foldl (fun n c => 10 * n + (c.toNat - 48)) 0

/-- Python `float` on an unsigned string over the alphabet
{digits, '.', '-'}: digits with at most one dot and at least one digit
(`"5."` and `".5"` parse, `"."`, `""`, `"1.2.3"`, `"1-5"` do not). -/
def parseUnsigned (cs : List Char) : Option ℚ :=
  let intPart := cs.takeWhile Char.isDigit
  let rest := cs.dropWhile Char.isDigit
  match rest with
  | [] => if intPart = [] then none else some (digitsVal intPart)
  | '.' :: frac =>
    if frac.all Char.isDigit ∧ (intPart ≠ [] ∨ frac ≠ []) then
      some ((digitsVal intPart : ℚ) + (digitsVal frac : ℚ) / (10 ^ frac.length))
    else none
  | _ => none

/-- Python `float` on a possibly-'-'-signed string over the alphabet
{digits, '.', '-'}. -/
def parseFloatTok (cs : List Char) : Option ℚ :=
  match cs with
  | '-' :: rest => (parseUnsigned rest).map (fun q => -q)
  | _ => parseUnsigned cs

/-- The line `_extract_lines` computes for one row: the market-parameter
string when present (`pd.notna`), else the outcome label; all retained
digit/'.'/'-' characters concatenated and parsed, `none` on failure
(the `except` branch). -/
def lineOf (r : Quote) : Option ℚ :=
  parseFloatTok (keepLineChars (match r.market_params with
    | some s => s
    | none => r.outcome))

/-- `DetectionService._extract_lines` for a pair of rows: both lines, or
`none` for the pair when either parse fails (one `try` wraps both). -/
def extractLines (r1 r2 : Quote) : Option (ℚ × ℚ) :=
  match lineOf r1, lineOf r2 with
  | some a, some b => some (a, b)
  | _, _ => none

/-- A middle opportunity record as built by
`DetectionService._find_middle_in_group` (claim-relevant fields). -/
structure MiddleOpp where
  line1 : ℚ
  bookmaker1 : String
  odds1 : ℚ
  line2 : ℚ
  bookmaker2 : String
  odds2 : ℚ
  max_profit_percentage : ℚ
  worst_case_loss_percentage : ℚ
  roi : ℚ
  status : String
deriving Repr, DecidableEq

/-- The record `_find_middle_in_group` appends for one qualifying pair. -/
def mkMiddle (r1 r2 : Quote) (l1 l2 : ℚ) : MiddleOpp :=
  let worst := -((1 / r1.odds + 1 / r2.odds) - 1) * 100
  let maxp := min (r1.odds - 1) (r2.odds - 1) * 100
  { line1 := l1, bookmaker1 := r1.bookmaker, odds1 := r1.odds,
    line2 := l2, bookmaker2 := r2.bookmaker, odds2 := r2.odds,
    max_profit_percentage := round2 maxp,
    worst_case_loss_percentage := round2 worst,
    roi := round2 ((maxp + worst) / 2),
    status := "active" }

/-- The body of the inner loop of `_find_middle_in_group` for one ordered
pair (after the `i >= j` skip): skip same-bookmaker pairs, extract both
lines, and emit iff the gap is within [MIDDLE_MIN_GAP, 10]. -/
def pairQualifies (r1 r2 : Quote) : Option MiddleOpp :=
  if r1.bookmaker = r2.bookmaker then none
  else
    match extractLines r1 r2 with
    | none => none
    | some (l1, l2) =>
      if MIDDLE_MIN_GAP ≤ |l1 - l2| ∧ |l1 - l2| ≤ 10 then
        some (mkMiddle r1 r2 l1 l2)
      else none

/-- `DetectionService._find_middle_in_group`: the double `iterrows` loop
with the `i >= j` skip — every ordered index pair i < j is visited once,
in row order (within a group the frame's index labels increase with
position, so label order equals positional order). -/
def findMiddleInGroup (g : List Quote) : List MiddleOpp :=
  (List.range g.length).flatMap (fun i =>
    (List.range g.length).filterMap (fun j =>
      if i < j then
        match g.get? i, g.get? j with
        | some r1, some r2 => pairQualifies r1 r2
        | _, _ => none
      else none))

/-- Char-list version of `String.startsWith`. -/
def startsWithCL : List Char → List Char → Bool
  | _, [] => true
  | [], _ :: _ => false
  | c :: cs, p :: ps => c = p && startsWithCL cs ps

/-- Substring test on char lists (any suffix has the pattern as prefix). -/
def containsSubCL : List Char → List Char → Bool
  | [], pat => pat.isEmpty
  | c :: cs, pat => startsWithCL (c :: cs) pat || containsSubCL cs pat

/-- `df['market'].str.contains('Spread|Total|Line', case=False)`. -/
def marketMatches (market : String) : Bool :=
  let low := market.toList.map Char.toLower
  containsSubCL low "spread".toList ||
  containsSubCL low "total".toList ||
  containsSubCL low "line".toList

/-- `DetectionService.detect_middles` restricted to one (event, sport,
match, market) group: groups whose market label does not lexically match
spread/total/line are filtered out before the scan. -/
def detectMiddlesGroup (market : String) (g : List Quote) : List MiddleOpp :=
  if marketMatches market then findMiddleInGroup g else []

example : lineOf ⟨"B", "Over 2.5", 2, none⟩ = some (5/2) := by
  simp [lineOf, keepLineChars, isLineChar, parseFloatTok, parseUnsigned, digitsVal]
  norm_num

example : lineOf ⟨"B", "Spread -3.5", 2, none⟩ = some (-(7/2)) := by
  simp [lineOf, keepLineChars, isLineChar, parseFloatTok, parseUnsigned, digitsVal]
  norm_num

example : lineOf ⟨"B", "Game 1 Over 2.5", 2, none⟩ = some (25/2) := by
  simp [lineOf, keepLineChars, isLineChar, parseFloatTok, parseUnsigned, digitsVal]
  norm_num

example : lineOf ⟨"B", "Team A vs B", 2, none⟩ = none := by rfl

example : lineOf ⟨"B", "Over 2.5", 2, some "3.5"⟩ = some (7/2) := by
  simp [lineOf, keepLineChars, isLineChar, parseFloatTok, parseUnsigned, digitsVal]
  norm_num

example : marketMatches "Total Goals" = true := by decide

example : marketMatches "Match Winner" = false := by decide

theorem pairQualifies_eq_some (r1 r2 : Quote) (m : MiddleOpp) :
    pairQualifies r1 r2 = some m ↔
      r1.bookmaker ≠ r2.bookmaker ∧ ∃ l1 l2 : ℚ,
        extractLines r1 r2 = some (l1, l2) ∧
        1/2 ≤ |l1 - l2| ∧ |l1 - l2| ≤ 10 ∧ m = mkMiddle r1 r2 l1 l2 := by
  unfold pairQualifies
  by_cases hbk : r1.bookmaker = r2.bookmaker
  · rw [if_pos hbk]
    simp [hbk]
  · rw [if_neg hbk]
    cases hx : extractLines r1 r2 with
    | none =>
      simp only [hbk, ne_eq, not_false_iff, true_and]
      constructor
      · intro h; exact absurd h (by simp)
      · rintro ⟨l1, l2, hl, _⟩
        exact absurd hl (by simp)
    | some p =>
      obtain ⟨l1, l2⟩ := p
      dsimp only
      have hgap : MIDDLE_MIN_GAP = (1/2 : ℚ) := rfl
      by_cases hg : MIDDLE_MIN_GAP ≤ |l1 - l2| ∧ |l1 - l2| ≤ 10
      · rw [if_pos hg]
        constructor
        · intro h
          obtain rfl := Option.some_inj.mp h
          exact ⟨hbk, l1, l2, rfl, hgap ▸ hg.1, hg.2, rfl⟩
        · rintro ⟨_, l1h, l2h, hl, _, _, rfl⟩
          injection hl with hp
          injection hp with hp1 hp2
          subst hp1
          subst hp2
          rfl
      · rw [if_neg hg]
        constructor
        · intro h; exact absurd h (by simp)
        · rintro ⟨_, l1h, l2h, hl, h1, h2, rfl⟩
          injection hl with hp
          injection hp with hp1 hp2
          subst hp1
          subst hp2
          exact absurd ⟨hgap ▸ h1, h2⟩ hg

theorem mem_findMiddleInGroup (g : List Quote) (m : MiddleOpp) :
    m ∈ findMiddleInGroup g ↔ ∃ i j, i < j ∧
      ∃ (hi : i < g.length) (hj : j < g.length),
        pairQualifies (g.get ⟨i, hi⟩) (g.get ⟨j, hj⟩) = some m := by
  unfold findMiddleInGroup
  simp only [List.mem_flatMap, List.mem_filterMap, List.mem_range]
  constructor
  · rintro ⟨i, hi, j, hj, hf⟩
    by_cases hij : i < j
    · rw [if_pos hij, List.get?_eq_get hi, List.get?_eq_get hj] at hf
      exact ⟨i, j, hij, hi, hj, hf⟩
    · rw [if_neg hij] at hf
      exact absurd hf (by simp)
  · rintro ⟨i, j, hij, hi, hj, hq⟩
    refine ⟨i, hi, j, hj, ?_⟩
    rw [if_pos hij, List.get?_eq_get hi, List.get?_eq_get hj]
    exact hq

/-- The ordered index pairs i < j the double loop visits, in visit
order. -/
def orderedIdxPairs (n : ℕ) : List (ℕ × ℕ) :=
  (List.range n).flatMap (fun i =>
    (List.range n).filterMap (fun j => if i < j then some (i, j) else none))

/-- Whether the rows at an index pair qualify for a middle. -/
def qualifiesB (g : List Quote) (p : ℕ × ℕ) : Bool :=
  match g.get? p.1, g.get? p.2 with
  | some r1, some r2 => (pairQualifies r1 r2).isSome
  | _, _ => false

theorem length_filterMap_eq_filter {α β : Type} (l : List α) (f : α → Option β) :
    (l.filterMap f).length = (l.filter (fun a => (f a).isSome)).length := by
  induction l with
  | nil => rfl
  | cons x xs ih =>
    cases hx : f x with
    | none => simp [List.filterMap_cons, List.filter_cons, hx, ih]
    | some b => simp [List.filterMap_cons, List.filter_cons, hx, ih]

theorem findMiddleInGroup_count (g : List Quote) :
    (findMiddleInGroup g).length =
      ((orderedIdxPairs g.length).filter (qualifiesB g)).length := by
  unfold findMiddleInGroup orderedIdxPairs
  rw [List.filter_flatMap, List.length_flatMap, List.length_flatMap]
  congr 1
  apply List.map_congr_left
  intro i _
  simp only [Function.comp]
  rw [List.filter_filterMap, length_filterMap_eq_filter, length_filterMap_eq_filter]
  have hpt : ∀ j ∈ List.range g.length,
      ((if i < j then
          match g.get? i, g.get? j with
          | some r1, some r2 => pairQualifies r1 r2
          | _, _ => none
        else none).isSome) =
      ((Option.filter (qualifiesB g) (if i < j then some (i, j) else none)).isSome) := by
    intro j hj
    by_cases hij : i < j
    · rw [if_pos hij, if_pos hij]
      cases hgi : g.get? i with
      | none => cases hgj : g.get? j <;>
          simp [Option.filter, qualifiesB, hgi, hgj, ← List.get?_eq_getElem?]
      | some r1 =>
        cases hgj : g.get? j with
        | none => simp [Option.filter, qualifiesB, hgi, hgj, ← List.get?_eq_getElem?]
        | some r2 =>
          simp only [Option.filter, qualifiesB, hgi, hgj, ← List.get?_eq_getElem?]
          by_cases hq : (pairQualifies r1 r2).isSome
          · simp [hq]
          · simp [hq]
    · rw [if_neg hij, if_neg hij]
      simp [Option.filter]
  rw [List.filter_congr hpt]

/-- C5: for a market group whose label contains spread/total/line
(case-insensitively), the detector emits one opportunity per ordered pair
of rows i < j from different bookmakers whose lines both parse with gap
in [0.5, 10] — all qualifying pairs, no dedup, no best-pair filtering —
with worst_case_loss = −100·(1/odds_a + 1/odds_b − 1),
max_profit = 100·min(odds_a − 1, odds_b − 1) and
roi = (max_profit + worst_case_loss)/2, up to 2-decimal rounding. -/
theorem detect_middles_spec (market : String) (g : List Quote)
    (hm : marketMatches market = true) :
    (∀ m ∈ detectMiddlesGroup market g, ∃ i j, i < j ∧
      ∃ (hi : i < g.length) (hj : j < g.length),
        (g.get ⟨i, hi⟩).bookmaker ≠ (g.get ⟨j, hj⟩).bookmaker ∧
        extractLines (g.get ⟨i, hi⟩) (g.get ⟨j, hj⟩) = some (m.line1, m.line2) ∧
        1/2 ≤ |m.line1 - m.line2| ∧ |m.line1 - m.line2| ≤ 10 ∧
        m.bookmaker1 = (g.get ⟨i, hi⟩).bookmaker ∧
        m.bookmaker2 = (g.get ⟨j, hj⟩).bookmaker ∧
        m.odds1 = (g.get ⟨i, hi⟩).odds ∧ m.odds2 = (g.get ⟨j, hj⟩).odds ∧
        m.worst_case_loss_percentage =
          round2 (-100 * (1 / m.odds1 + 1 / m.odds2 - 1)) ∧
        m.max_profit_percentage =
          round2 (100 * min (m.odds1 - 1) (m.odds2 - 1)) ∧
        m.roi = round2 ((100 * min (m.odds1 - 1) (m.odds2 - 1) +
          -100 * (1 / m.odds1 + 1 / m.odds2 - 1)) / 2)) ∧
    (∀ (i j : ℕ) (hi : i < g.length) (hj : j < g.length), i < j →
      (g.get ⟨i, hi⟩).bookmaker ≠ (g.get ⟨j, hj⟩).bookmaker →
      ∀ l1 l2 : ℚ, extractLines (g.get ⟨i, hi⟩) (g.get ⟨j, hj⟩) = some (l1, l2) →
      1/2 ≤ |l1 - l2| → |l1 - l2| ≤ 10 →
      mkMiddle (g.get ⟨i, hi⟩) (g.get ⟨j, hj⟩) l1 l2 ∈ detectMiddlesGroup market g) ∧
    (detectMiddlesGroup market g).length =
      ((orderedIdxPairs g.length).filter (qualifiesB g)).length := by
  have hdm : detectMiddlesGroup market g = findMiddleInGroup g := by
    simp [detectMiddlesGroup, hm]
  refine ⟨?_, ?_, ?_⟩
  · intro m hme
    rw [hdm, mem_findMiddleInGroup] at hme
    obtain ⟨i, j, hij, hi, hj, hq⟩ := hme
    rw [pairQualifies_eq_some] at hq
    obtain ⟨hbk, l1, l2, hex, hg1, hg2, rfl⟩ := hq
    have ho1 : (mkMiddle (g.get ⟨i, hi⟩) (g.get ⟨j, hj⟩) l1 l2).odds1 =
        (g.get ⟨i, hi⟩).odds := rfl
    have ho2 : (mkMiddle (g.get ⟨i, hi⟩) (g.get ⟨j, hj⟩) l1 l2).odds2 =
        (g.get ⟨j, hj⟩).odds := rfl
    refine ⟨i, j, hij, hi, hj, hbk, hex, hg1, hg2, rfl, rfl, rfl, rfl, ?_, ?_, ?_⟩
    · show round2 (-((1 / (g.get ⟨i, hi⟩).odds + 1 / (g.get ⟨j, hj⟩).odds) - 1) * 100) = _
      rw [ho1, ho2]
      congr 1
      ring
    · show round2 (min ((g.get ⟨i, hi⟩).odds - 1) ((g.get ⟨j, hj⟩).odds - 1) * 100) = _
      rw [ho1, ho2]
      congr 1
      ring
    · show round2 ((min ((g.get ⟨i, hi⟩).odds - 1) ((g.get ⟨j, hj⟩).odds - 1) * 100 +
        -((1 / (g.get ⟨i, hi⟩).odds + 1 / (g.get ⟨j, hj⟩).odds) - 1) * 100) / 2) = _
      rw [ho1, ho2]
      congr 1
      ring
  · intro i j hi hj hij hbk l1 l2 hex h1 h2
    rw [hdm, mem_findMiddleInGroup]
    exact ⟨i, j, hij, hi, hj,
      (pairQualifies_eq_some _ _ _).mpr ⟨hbk, l1, l2, hex, h1, h2, rfl⟩⟩
  · rw [hdm]
    exact findMiddleInGroup_count g

def demoMidQ1 : Quote := ⟨"BookA", "Over 6.5", 21/10, none⟩

def demoMidQ2 : Quote := ⟨"BookB", "Under 2.5", 2, none⟩

theorem detect_middles_spec_witness :
    marketMatches "Total Goals" = true ∧
    mkMiddle demoMidQ1 demoMidQ2 (13/2) (5/2) ∈
      detectMiddlesGroup "Total Goals" [demoMidQ1, demoMidQ2] := by
  have habs : |(13 : ℚ)/2 - 5/2| = 4 := by
    rw [abs_of_nonneg (by norm_num : (0 : ℚ) ≤ 13/2 - 5/2)]
    norm_num
  refine ⟨by decide, ?_⟩
  have h := (detect_middles_spec "Total Goals" [demoMidQ1, demoMidQ2] (by decide)).2.1
    0 1 (by norm_num) (by norm_num) (by norm_num)
    (by show demoMidQ1.bookmaker ≠ demoMidQ2.bookmaker; decide)
    (13/2) (5/2)
    (by show extractLines demoMidQ1 demoMidQ2 = _
        simp [extractLines, lineOf, demoMidQ1, demoMidQ2, keepLineChars, isLineChar,
          parseFloatTok, parseUnsigned, digitsVal]
        norm_num)
    (by rw [habs]; norm_num) (by rw [habs]; norm_num)
  exact h

/-- The parse C7 describes: the FIRST signed numeric token of the label —
the first maximal run of retained digit/'.'/'-' characters — parsed as a
decimal.  This follows the spec's wording and exists only for comparison
against the source's `lineOf`. -/
def firstTokenLine (s : String) : Option ℚ :=
  parseFloatTok ((s.toList.dropWhile (fun c => !isLineChar c)).takeWhile isLineChar)

def demoTokQuote : Quote := ⟨"B", "Game 1 Over 2.5", 2, none⟩

/-- C7 counterexample: on the outcome label "Game 1 Over 2.5" the source
concatenates ALL retained characters ("12.5") and parses 12.5, while the
first signed numeric token is "1"; the two parses disagree, so the claim's
description of the parse is false. -/
theorem extract_lines_not_first_token :
    demoTokQuote.market_params = none ∧
    lineOf demoTokQuote = some (25/2) ∧
    firstTokenLine demoTokQuote.outcome = some 1 ∧
    lineOf demoTokQuote ≠ firstTokenLine demoTokQuote.outcome := by
  have h1 : lineOf demoTokQuote = some (25/2) := by
    simp [lineOf, demoTokQuote, keepLineChars, isLineChar, parseFloatTok,
      parseUnsigned, digitsVal]
    norm_num
  have h2 : firstTokenLine demoTokQuote.outcome = some 1 := by
    simp [firstTokenLine, demoTokQuote, isLineChar, parseFloatTok,
      parseUnsigned, digitsVal]
  refine ⟨rfl, h1, h2, ?_⟩
  rw [h1, h2]
  intro h
  have := Option.some_inj.mp h
  norm_num at this

/-- C7 (amended): line extraction is total and never raises — it prefers
the market-parameter string when present, else the outcome label, keeps
that whole string's digit/'.'/'-' characters in order and parses the
concatenation (not the first numeric token); any parse failure yields an
absent value for the pair, and such pairs are excluded from the middle
scan's output without aborting it. -/
theorem extract_lines_spec :
    (∀ r : Quote, lineOf r = parseFloatTok (keepLineChars
      (match r.market_params with | some s => s | none => r.outcome))) ∧
    (∀ r1 r2 : Quote, lineOf r1 = none ∨ lineOf r2 = none →
      extractLines r1 r2 = none) ∧
    (∀ (g : List Quote) (m : MiddleOpp), m ∈ findMiddleInGroup g →
      ∃ i j, i < j ∧ ∃ (hi : i < g.length) (hj : j < g.length),
        extractLines (g.get ⟨i, hi⟩) (g.get ⟨j, hj⟩) =
          some (m.line1, m.line2)) := by
  refine ⟨fun r => rfl, ?_, ?_⟩
  · intro r1 r2 h
    unfold extractLines
    rcases h with h | h
    · rw [h]
    · rw [h]
      cases lineOf r1 <;> rfl
  · intro g m hm
    rw [mem_findMiddleInGroup] at hm
    obtain ⟨i, j, hij, hi, hj, hq⟩ := hm
    rw [pairQualifies_eq_some] at hq
    obtain ⟨_, l1, l2, hex, _, _, rfl⟩ := hq
    exact ⟨i, j, hij, hi, hj, hex⟩

def demoNoLineQuote : Quote := ⟨"C", "Team A vs Team B", 3, none⟩

theorem extract_lines_spec_witness :
    lineOf demoNoLineQuote = none ∧
    extractLines demoNoLineQuote demoTokQuote = none :=
  ⟨by rfl, extract_lines_spec.2.1 demoNoLineQuote demoTokQuote (Or.inl (by rfl))⟩

/-- Case-insensitive string comparison
(`df['sport'].str.lower() == sport.lower()`). -/
def lowerEq (a b : String) : Bool :=
  a.toList.map Char.toLower = b.toList.map Char.toLower

/-- Stable ascending insertion by roi: the new element goes after every
element with roi ≤ its own (ties keep earlier elements first). -/
def insertRoiAsc (x : StoredOpp) : List StoredOpp → List StoredOpp
  | [] => [x]
  | y :: ys => if y.roi ≤ x.roi then y :: insertRoiAsc x ys else x :: y :: ys

/-- Stable ascending sort by roi.  numpy's default `quicksort` (used by
`sort_values`) runs plain insertion sort for arrays below 16 elements,
which this reproduces exactly; for larger arrays the kind is unstable and
tie order is unspecified. -/
def sortRoiAsc (l : List StoredOpp) : List StoredOpp :=
  l.foldl (fun acc x => insertRoiAsc x acc) []

/-- `df['profit_percentage'] >= min_profit` on one row: an absent value
(the NaN pandas stores for the low variant) fails the comparison. -/
def profitPasses (min_profit : ℚ) (o : StoredOpp) : Bool :=
  match o.profit_percentage with
  | some p => min_profit ≤ p
  | none => false

/-- The filter chain of `OpportunityService.get_opportunities` (each
filter applied only when its argument is given / positive, as in the
source). -/
def applyFilters (category sport : Option String) (min_roi min_profit : ℚ)
    (status : String) (store : List StoredOpp) : List StoredOpp :=
  let df1 := if status ≠ "" then store.filter (fun o => o.status = status) else store
  let df2 := match category with
    | some c => df1.filter (fun o => o.type = c)
    | none => df1
  let df3 := match sport with
    | some sp => df2.filter (fun o => lowerEq o.sport sp)
    | none => df2
  let df4 := if 0 < min_roi then df3.filter (fun o => min_roi ≤ o.roi) else df3
  if 0 < min_profit then df4.filter (profitPasses min_profit) else df4

/-- `OpportunityService.get_opportunities`: filter, sort by roi
descending (`sort_values(ascending=False)` = ascending argsort with the
indexer reversed), cap at `top_n`.  Rows whose details JSON fails to
parse are a persistence artefact outside this model. -/
def getOpportunities (store : List StoredOpp) (category sport : Option String)
    (min_roi min_profit : ℚ) (top_n : ℕ) (status : String) : List StoredOpp :=
  ((sortRoiAsc (applyFilters category sport min_roi min_profit status store)).reverse).take
    top_n

theorem insertRoiAsc_perm (x : StoredOpp) : ∀ l : List StoredOpp,
    List.Perm (insertRoiAsc x l) (x :: l) := by
  intro l
  induction l with
  | nil => exact List.Perm.refl _
  | cons y ys ih =>
    unfold insertRoiAsc
    by_cases h : y.roi ≤ x.roi
    · rw [if_pos h]
      exact (ih.cons y).trans (List.Perm.swap x y ys)
    · rw [if_neg h]

theorem sortRoiAsc_perm (l : List StoredOpp) : List.Perm (sortRoiAsc l) l := by
  have haux : ∀ (l acc : List StoredOpp),
      List.Perm (l.foldl (fun acc x => insertRoiAsc x acc) acc) (acc ++ l) := by
    intro l
    induction l with
    | nil => intro acc; simp
    | cons x xs ih =>
      intro acc
      have h1 := ih (insertRoiAsc x acc)
      have h2 : List.Perm (insertRoiAsc x acc ++ xs) ((x :: acc) ++ xs) :=
        (insertRoiAsc_perm x acc).append_right xs
      have h3 : List.Perm ((x :: acc) ++ xs) (acc ++ x :: xs) :=
        List.perm_middle.symm
      exact (h1.trans h2).trans h3
  simpa using haux l []

theorem mem_insertRoiAsc {z x : StoredOpp} {l : List StoredOpp} :
    z ∈ insertRoiAsc x l ↔ z = x ∨ z ∈ l :=
  ⟨fun h => List.mem_cons.mp ((insertRoiAsc_perm x l).mem_iff.mp h),
   fun h => (insertRoiAsc_perm x l).mem_iff.mpr (List.mem_cons.mpr h)⟩

theorem insertRoiAsc_sorted (x : StoredOpp) : ∀ {l : List StoredOpp},
    List.Sorted (fun a b => a.roi ≤ b.roi) l →
    List.Sorted (fun a b => a.roi ≤ b.roi) (insertRoiAsc x l) := by
  intro l
  induction l with
  | nil => intro _; simp [insertRoiAsc]
  | cons y ys ih =>
    intro h
    rw [List.sorted_cons] at h
    unfold insertRoiAsc
    by_cases hyx : y.roi ≤ x.roi
    · rw [if_pos hyx]
      rw [List.sorted_cons]
      refine ⟨?_, ih h.2⟩
      intro z hz
      rcases mem_insertRoiAsc.mp hz with rfl | hz2
      · exact hyx
      · exact h.1 z hz2
    · rw [if_neg hyx]
      rw [List.sorted_cons]
      refine ⟨?_, List.sorted_cons.mpr h⟩
      intro z hz
      rcases List.mem_cons.mp hz with rfl | hz2
      · exact le_of_lt (lt_of_not_le hyx)
      · exact le_trans (le_of_lt (lt_of_not_le hyx)) (h.1 z hz2)

theorem sortRoiAsc_sorted (l : List StoredOpp) :
    List.Sorted (fun a b => a.roi ≤ b.roi) (sortRoiAsc l) := by
  have haux : ∀ (l acc : List StoredOpp),
      List.Sorted (fun a b => a.roi ≤ b.roi) acc →
      List.Sorted (fun a b => a.roi ≤ b.roi)
        (l.foldl (fun acc x => insertRoiAsc x acc) acc) := by
    intro l
    induction l with
    | nil => intro acc h; exact h
    | cons x xs ih =>
      intro acc h
      exact ih (insertRoiAsc x acc) (insertRoiAsc_sorted x h)
  exact haux l [] (by simp)

theorem profitPasses_iff (mp : ℚ) (o : StoredOpp) :
    profitPasses mp o = true ↔ ∃ p, o.profit_percentage = some p ∧ mp ≤ p := by
  unfold profitPasses
  cases h : o.profit_percentage with
  | none => simp
  | some p => simp

theorem mem_if_filter (c : Prop) [Decidable c] (p : StoredOpp → Bool)
    (l : List StoredOpp) (o : StoredOpp) :
    o ∈ (if c then l.filter p else l) ↔ o ∈ l ∧ (c → p o = true) := by
  by_cases h : c
  · simp [h, List.mem_filter]
  · simp [h]

theorem mem_opt_filter (copt : Option String) (p : String → StoredOpp → Bool)
    (l : List StoredOpp) (o : StoredOpp) :
    o ∈ (match copt with | some c => l.filter (p c) | none => l) ↔
      o ∈ l ∧ ∀ c, copt = some c → p c o = true := by
  cases copt with
  | none => simp
  | some c => simp [List.mem_filter]

theorem mem_applyFilters (category sport : Option String) (mr mp : ℚ)
    (status : String) (store : List StoredOpp) (o : StoredOpp) :
    o ∈ applyFilters category sport mr mp status store ↔
      o ∈ store ∧
      (status ≠ "" → o.status = status) ∧
      (∀ c, category = some c → o.type = c) ∧
      (∀ sp, sport = some sp → lowerEq o.sport sp = true) ∧
      (0 < mr → mr ≤ o.roi) ∧
      (0 < mp → ∃ p, o.profit_percentage = some p ∧ mp ≤ p) := by
  unfold applyFilters
  rw [mem_if_filter (0 < mp) (profitPasses mp)]
  rw [mem_if_filter (0 < mr) (fun o => decide (mr ≤ o.roi))]
  rw [mem_opt_filter sport (fun sp o => lowerEq o.sport sp)]
  rw [mem_opt_filter category (fun c o => decide (o.type = c))]
  rw [mem_if_filter (status ≠ "") (fun o => decide (o.status = status))]
  simp only [decide_eq_true_eq, profitPasses_iff, and_assoc]

/-- C9 (amended): the filtered query returns exactly the entries matching
every given filter (filters skipped when unset / non-positive, as the
source does), sorted by roi descending and capped at the requested count;
but ties are NOT returned in original insertion order —
`sort_values(ascending=False)` argsorts ascending and reverses the whole
indexer, so tied entries come out in reverse insertion order (exactly so
in numpy's stable small-array regime modelled here). -/
theorem get_opportunities_spec (store : List StoredOpp)
    (category sport : Option String) (mr mp : ℚ) (top_n : ℕ) (status : String) :
    (∀ o ∈ getOpportunities store category sport mr mp top_n status,
      o ∈ store ∧
      (status ≠ "" → o.status = status) ∧
      (∀ c, category = some c → o.type = c) ∧
      (∀ sp, sport = some sp → lowerEq o.sport sp = true) ∧
      (0 < mr → mr ≤ o.roi) ∧
      (0 < mp → ∃ p, o.profit_percentage = some p ∧ mp ≤ p)) ∧
    List.Sorted (fun a b => b.roi ≤ a.roi)
      (getOpportunities store category sport mr mp top_n status) ∧
    (getOpportunities store category sport mr mp top_n status).length =
      min top_n (applyFilters category sport mr mp status store).length ∧
    ((applyFilters category sport mr mp status store).length ≤ top_n →
      List.Perm (getOpportunities store category sport mr mp top_n status)
        (applyFilters category sport mr mp status store)) := by
  set f := applyFilters category sport mr mp status store with hf
  refine ⟨?_, ?_, ?_, ?_⟩
  · intro o ho
    have h1 : o ∈ (sortRoiAsc f).reverse :=
      List.mem_of_mem_take ho
    rw [List.mem_reverse] at h1
    have h2 : o ∈ f := (sortRoiAsc_perm f).mem_iff.mp h1
    rw [hf, mem_applyFilters] at h2
    exact h2
  · have hasc := sortRoiAsc_sorted f
    have hdesc : List.Sorted (fun a b => b.roi ≤ a.roi) (sortRoiAsc f).reverse := by
      unfold List.Sorted at hasc ⊢
      rw [List.pairwise_reverse]
      exact hasc
    exact hdesc.sublist (List.take_sublist _ _)
  · unfold getOpportunities
    rw [List.length_take, List.length_reverse, (sortRoiAsc_perm _).length_eq]
  · intro hle
    unfold getOpportunities
    have hlen : ((sortRoiAsc f).reverse).length ≤ top_n := by
      rw [List.length_reverse, (sortRoiAsc_perm _).length_eq]
      exact hle
    rw [List.take_of_length_le hlen]
    exact ((sortRoiAsc f).reverse_perm).trans (sortRoiAsc_perm f)

def demoOppA : StoredOpp :=
  ⟨"a", "arbitrage", "Football", 5, some 5, "active", some 100⟩

def demoOppB : StoredOpp :=
  ⟨"b", "ev", "Football", 5, some 3, "active", some 100⟩

/-- C9 counterexample: two active entries with equal roi come back in
REVERSED insertion order (the implementation reverses an ascending sort),
contradicting the claimed insertion-order tie-break. -/
theorem get_opportunities_ties_reversed :
    demoOppA.roi = demoOppB.roi ∧
    getOpportunities [demoOppA, demoOppB] none none 0 0 100 "active" =
      [demoOppB, demoOppA] ∧
    ([demoOppB, demoOppA] : List StoredOpp) ≠ [demoOppA, demoOppB] := by
  refine ⟨rfl, ?_, ?_⟩
  · rfl
  · simp [demoOppA, demoOppB]

theorem get_opportunities_spec_witness :
    ((applyFilters none none 0 0 "active" [demoOppA, demoOppB]).length ≤ 100) ∧
    List.Perm (getOpportunities [demoOppA, demoOppB] none none 0 0 100 "active")
      (applyFilters none none 0 0 "active" [demoOppA, demoOppB]) :=
  ⟨by norm_num [applyFilters, demoOppA, demoOppB],
   (get_opportunities_spec [demoOppA, demoOppB] none none 0 0 100 "active").2.2.2
     (by norm_num [applyFilters, demoOppA, demoOppB])⟩
